import Mathlib

/-!
Verification of the LTM-Y2K19JF-03 multi-segment display driver
(`src/ltmy2k19jf03.c` and friends) against its natural-language
specification.

The C code is shallowly embedded: characters are natural numbers
(ASCII codes), `uint8_t`/`uint16_t` values are natural numbers with
explicit masking where the C code masks, the 5x5 frame buffer
`uint8_t block[5][5]` is a function `Fin 5 → Fin 5 → Nat`, and C
strings are lists of character codes (the NUL terminator is the end of
the list; the render loops stop at a 0 byte exactly as the C loops do).
-/

set_option maxRecDepth 4000

namespace LTM
/-- The `alphanum_chars` table from `ltmy2k19jf03.c`: 14-segment bit
patterns for `A`..`Z` and `0`..`9`, as (ASCII code, segment code) pairs.
The table is terminated in C by a `{0, 0}` sentinel, modelled here by the
end of the list. -/
def alphanum_chars : List (Nat × Nat) :=
  [(65, 0xEC88), (66, 0xF2A0), (67, 0x9C00), (68, 0xF220), (69, 0x9C88),
   (70, 0x8C88), (71, 0xBC80), (72, 0x6C88), (73, 0x9220), (74, 0x7800),
   (75, 0x0D48), (76, 0x1C00), (77, 0x6D04), (78, 0x6C44), (79, 0xFC00),
   (80, 0xCC88), (81, 0xFC40), (82, 0xCCC8), (83, 0xB084), (84, 0x8220),
   (85, 0x7C00), (86, 0x0D10), (87, 0x6C50), (88, 0x0154), (89, 0x0124),
   (90, 0x9110), (48, 0xFC00), (49, 0x6100), (50, 0xD888), (51, 0xF088),
   (52, 0x6488), (53, 0xB488), (54, 0xBC88), (55, 0xE000), (56, 0xFC88),
   (57, 0xF488)]
/-- The linear search of `ltm_find_alphanum_code`: walk the table until
the character matches; the default (not-found) code is the asterisk
pattern `0x03FC`. -/
def findCode : List (Nat × Nat) → Nat → Nat
  | [], _ => 0x03FC
  | (ch, code) :: rest, c => if ch = c then code else findCode rest c
/-- `ltm_find_alphanum_code` from `ltmy2k19jf03.c`. -/
def ltm_find_alphanum_code (c : Nat) : Nat :=
  findCode alphanum_chars c
/-- `ltm_find_numeric_code` from `ltmy2k19jf03.c`: `code` starts as the
asterisk pattern `0x03FC` and is replaced by the alphanumeric code when
the character is a digit (`'0'` = 48 .. `'9'` = 57); the result is the
high byte's segment bits together with a middle-segment bit. -/
def ltm_find_numeric_code (c : Nat) : Nat :=
  let code := if 48 ≤ c ∧ c ≤ 57 then ltm_find_alphanum_code c else 0x03FC
  let middle_seg := if code &&& 0x0088 ≠ 0 then 2 else 0
  ((code &&& 0xFC00) >>> 8) ||| middle_seg
/-- The numeric fold as the specification describes it: the result's
top bits are the code's high byte shifted down by 8 (the result is an
8-bit numeric pattern whose low two bit positions are not segment data,
so only the high byte's top six bits land in the result), and an extra
middle-segment bit (value 2) is set if either bit `0x0080` or bit
`0x0008` of the 16-bit alphanumeric code is set. -/
def numericFold (code : Nat) : Nat :=
  ((code >>> 8) &&& 0xFC) |||
    (if code &&& 0x0080 ≠ 0 ∨ code &&& 0x0008 ≠ 0 then 2 else 0)
/-- The frame buffer `uint8_t block[5][5]`: 5 group frames of 5 bytes.
`b i j` is byte `j` of group `i`. -/
abbrev Blk := Fin 5 → Fin 5 → Nat
/-- One `block[gi][bj] = block[gi][bj] | v` statement of the C render
loops. -/
def orUpd (gi bj : Fin 5) (v : Nat) (b : Blk) : Blk :=
  fun i j => if i = gi ∧ j = bj then b i j ||| v else b i j
/-- The per-byte action of `ltm_clear_alphanum`: the first C loop sets
`block[i][0] = 0` and `block[i][1] &= 0x02` for all five groups; the
second loop additionally sets `block[i][1] = 0`, `block[i][2] = 0` and
`block[i][3] &= 0x0F` for groups 3 and 4 (so byte 1 of those groups
ends at 0). -/
def caFun (i j : Fin 5) (x : Nat) : Nat :=
  if j.val = 0 then 0
  else if j.val = 1 then (if 3 ≤ i.val then 0 else x &&& 0x02)
  else if j.val = 2 then (if 3 ≤ i.val then 0 else x)
  else if j.val = 3 then (if 3 ≤ i.val then x &&& 0x0F else x)
  else x
/-- `ltm_clear_alphanum` from `ltmy2k19jf03.c`. -/
def ltm_clear_alphanum (b : Blk) : Blk :=
  fun i j => caFun i j (b i j)
/-- The per-byte action of `ltm_clear_numeric`: for groups 1 and 2 it
sets `block[i][1] &= 0xFC`, `block[i][2] = 0` and `block[i][3] &= 0x0F`. -/
def cnFun (i j : Fin 5) (x : Nat) : Nat :=
  if i.val = 1 ∨ i.val = 2 then
    (if j.val = 1 then x &&& 0xFC
     else if j.val = 2 then 0
     else if j.val = 3 then x &&& 0x0F
     else x)
  else x
/-- `ltm_clear_numeric` from `ltmy2k19jf03.c`. -/
def ltm_clear_numeric (b : Blk) : Blk :=
  fun i j => cnFun i j (b i j)
/-- The body of the `ltm_render_alphanum` loop for character index `i`
with alphanumeric code `code`: characters 0..4 go to bytes 0 and 1 of
group `i`; characters 5 and 6 go to bytes 1, 2 and 3 of group `i - 2`. -/
def alphaStep (i : Nat) (code : Nat) (b : Blk) : Blk :=
  if h : i < 5 then
    orUpd ⟨i, h⟩ 1 (code &&& 0x00FC)
      (orUpd ⟨i, h⟩ 0 ((code &&& 0xFF00) >>> 8) b)
  else if h2 : i < 7 then
    orUpd ⟨i - 2, by omega⟩ 3 ((code &&& 0x003C) <<< 2)
      (orUpd ⟨i - 2, by omega⟩ 2 ((code &&& 0x3FC0) >>> 6)
        (orUpd ⟨i - 2, by omega⟩ 1 ((code &&& 0xC000) >>> 14) b))
  else b
/-- The `for (i = 0; i < 7 && render[i] != '\0'; i++)` loop of
`ltm_render_alphanum`. -/
def alphaLoop : Nat → List Nat → Blk → Blk
  | _, [], b => b
  | i, c :: cs, b =>
    if i < 7 ∧ c ≠ 0 then
      alphaLoop (i + 1) cs (alphaStep i (ltm_find_alphanum_code c) b)
    else b
/-- `ltm_render_alphanum` from `ltmy2k19jf03.c`: clear the alphanumeric
region, then OR each character's code into its byte offsets. -/
def ltm_render_alphanum (render : List Nat) (b : Blk) : Blk :=
  alphaLoop 0 render (ltm_clear_alphanum b)
/-- `block_index` of the `ltm_render_numeric` loop: group 1 for even
digit positions, group 2 for odd ones. -/
def numGroup (i : Nat) : Fin 5 :=
  if i % 2 = 0 then 1 else 2
/-- The body of the `ltm_render_numeric` loop for digit index `i` with
numeric code `code`: digits 0 and 1 go to bytes 1 and 2 of their group;
digits 2 and 3 go to bytes 2 and 3. -/
def numStep (i : Nat) (code : Nat) (b : Blk) : Blk :=
  if i < 2 then
    orUpd (numGroup i) 2 ((code &&& 0x3E) <<< 2)
      (orUpd (numGroup i) 1 ((code &&& 0xC0) >>> 6) b)
  else
    orUpd (numGroup i) 3 ((code &&& 0x1E) <<< 3)
      (orUpd (numGroup i) 2 ((code &&& 0xE0) >>> 5) b)
/-- The `for (i = 0; i < 4 && render[i] != '\0'; i++)` loop of
`ltm_render_numeric`. -/
def numLoop : Nat → List Nat → Blk → Blk
  | _, [], b => b
  | i, c :: cs, b =>
    if i < 4 ∧ c ≠ 0 then
      numLoop (i + 1) cs (numStep i (ltm_find_numeric_code c) b)
    else b
/-- `ltm_render_numeric` from `ltmy2k19jf03.c`. -/
def ltm_render_numeric (render : List Nat) (b : Blk) : Blk :=
  numLoop 0 render (ltm_clear_numeric b)
/-- The initial frame buffer, the `block` global of the daemon: all
content bits zero and one mux-select (transistor) bit set per group. -/
def block : Blk := fun i j =>
  if i.val = 0 ∧ j.val = 3 then 0x04
  else if i.val = 1 ∧ j.val = 3 then 0x02
  else if i.val = 2 ∧ j.val = 3 then 0x01
  else if i.val = 3 ∧ j.val = 4 then 0x80
  else if i.val = 4 ∧ j.val = 4 then 0x40
  else 0
/-- The alphanumeric-owned bit positions: exactly the bits
`ltm_render_alphanum` can set (and `ltm_clear_alphanum` is meant to
clear) in each byte. -/
def alphaOwnedMask (i j : Fin 5) : Nat :=
  if j.val = 0 then 0xFF
  else if j.val = 1 then (if 3 ≤ i.val then 0xFF else 0xFC)
  else if j.val = 2 then (if 3 ≤ i.val then 0xFF else 0)
  else if j.val = 3 then (if 3 ≤ i.val then 0xF0 else 0)
  else 0
/-- The numeric-owned bit positions: exactly the bits cleared by
`ltm_clear_numeric` and settable by `ltm_render_numeric`, in groups 1
and 2. -/
def numericOwnedMask (i j : Fin 5) : Nat :=
  if i.val = 1 ∨ i.val = 2 then
    (if j.val = 1 then 0x03
     else if j.val = 2 then 0xFF
     else if j.val = 3 then 0xF0
     else 0)
  else 0
/-- The mux-select (transistor) bit positions: the last five payload
bits of each group frame, i.e. bits 2..0 of byte 3 and bits 7..6 of
byte 4. -/
def muxSelectMask (j : Fin 5) : Nat :=
  if j.val = 3 then 0x07 else if j.val = 4 then 0xC0 else 0
/-- `numStep` with the byte-1 OR value masked to bit 1: the residue of a
numeric render step after `ltm_clear_alphanum` has run over it. -/
def numStepA (i : Nat) (code : Nat) (b : Blk) : Blk :=
  if i < 2 then
    orUpd (numGroup i) 2 ((code &&& 0x3E) <<< 2)
      (orUpd (numGroup i) 1 (((code &&& 0xC0) >>> 6) &&& 2) b)
  else numStep i code b
/-- `numLoop` with `numStepA` in place of `numStep`. -/
def numLoopA : Nat → List Nat → Blk → Blk
  | _, [], b => b
  | i, c :: cs, b =>
    if i < 4 ∧ c ≠ 0 then
      numLoopA (i + 1) cs (numStepA i (ltm_find_numeric_code c) b)
    else b
/-- Clear bit 0 of byte 1 in groups 1 and 2 and leave every other bit
of the buffer unchanged. -/
def numFixup (b : Blk) : Blk := fun i j =>
  if (i.val = 1 ∨ i.val = 2) ∧ j.val = 1 then (b i j >>> 1) <<< 1 else b i j
/-- The low six bits of byte 4 (the fifth byte) of every group frame are
zero: these are the reserved stop/sync bit positions. -/
def low6Zero (b : Blk) : Prop := ∀ i : Fin 5, b i 4 &&& 0x3F = 0
/-- `blast_bit` from `ltmy2k19jf03.c`, as the value driven onto the data
line: the bit is masked with `0x01` ((bit & 0x01) == 0 gives LOW = 0,
anything else HIGH = 1). -/
def blast_bit (bit : Nat) : Nat := bit &&& 1
/-- `ltm_blast_block` from `ltmy2k19jf03.c`, as the sequence of values
driven onto the data line: the 5 bytes are copied to a local block, the
low 6 bits of byte 4 are masked off (`local_block[4] & 0xc0`), then one
start bit (1) is sent followed by each byte's bits from bit 7 down to
bit 0. -/
def ltm_blast_block (render_block : Fin 5 → Nat) : List Nat :=
  blast_bit 1 ::
    ((List.finRange 5).map fun i =>
      (List.range 8).map fun j =>
        blast_bit ((if i.val = 4 then render_block i &&& 0xC0 else render_block i) >>> (7 - j))).flatten
/-- The GPIO capability consumed by the display core: each operation
returns an `int` status (0 on success, -1 on failure, as in
`sysfs_gpio.c`). -/
structure GpioPort where
  export_pin : Nat → Int
  set_direction : Nat → Nat → Int
/-- `GPIO_DIR_OUTPUT` from `gpio.h`. -/
def GPIO_DIR_OUTPUT : Nat := 1
/-- `ltm_display_init` from `ltmy2k19jf03.c`: it calls
`gpio_export_pin` and `gpio_set_direction` for the data, clock and
reset pins, DISCARDS every return value, and unconditionally returns 0.
The discarded results are modelled as unused `let` bindings. -/
def ltm_display_init (g : GpioPort) (data_pin clock_pin reset_pin : Nat) : Int :=
  let _r1 := g.export_pin data_pin
  let _r2 := g.set_direction data_pin GPIO_DIR_OUTPUT
  let _r3 := g.export_pin clock_pin
  let _r4 := g.set_direction clock_pin GPIO_DIR_OUTPUT
  let _r5 := g.export_pin reset_pin
  let _r6 := g.set_direction reset_pin GPIO_DIR_OUTPUT
  0
/-- A GPIO backend on which every export and direction call fails with
-1, as `sysfs_gpio.c` does when `/sys/class/gpio/export` cannot be
opened. -/
def failingGpio : GpioPort :=
  ⟨fun _ => -1, fun _ _ => -1⟩

end LTM

namespace Handoff
/-- Program counter of the producer (the `main` loop of
`test_multiseg.c`): at the top waiting while `semaphore == 1`; writing
into the shared block; spinning in `while (semaphore < 2)`; undoing its
writes before the next iteration. -/
inductive PPC
  | ptop
  | pwrite
  | pwait
  | pundo
deriving DecidableEq
/-- Program counter of the consumer (`blast_blocks_loop`): about to
transmit its working copy; checking the semaphore after the sleep;
copying byte `k` of the shared block. -/
inductive CPC
  | cblast
  | ccheck
  | ccopy (k : Nat)
deriving DecidableEq
/-- The shared state of `test_multiseg.c`: the one-byte semaphore, the
shared 5x5 `block` (flattened to 25 bytes), the consumer's working copy
`local_block`, both program counters, and the history of staged
snapshots (the value of `block` each time the producer set the
semaphore to 0, newest first; the initial block counts as staged). -/
structure HState where
  sem : Nat
  blk : Fin 25 → Nat
  localBlk : Fin 25 → Nat
  staged : List (Fin 25 → Nat)
  ppc : PPC
  cpc : CPC
/-- One interleaved step of the two threads, under sequentially
consistent shared memory: each constructor is one atomic load, store or
byte copy of the C code. Producer writes are nondeterministic byte
stores, over-approximating the actual mask writes of `main`. -/
inductive Step : HState → HState → Prop
  | blast (s : HState) (h : s.cpc = CPC.cblast) :
      Step s { s with cpc := CPC.ccheck }
  | checkIdle (s : HState) (h : s.cpc = CPC.ccheck) (hs : s.sem ≠ 0) :
      Step s { s with cpc := CPC.cblast }
  | checkGrab (s : HState) (h : s.cpc = CPC.ccheck) (hs : s.sem = 0) :
      Step s { s with cpc := CPC.ccopy 0, sem := 1 }
  | copyByte (s : HState) (k : Nat) (h : s.cpc = CPC.ccopy k) (hk : k < 25) :
      Step s { s with cpc := CPC.ccopy (k + 1),
                      localBlk := Function.update s.localBlk ⟨k, hk⟩ (s.blk ⟨k, hk⟩) }
  | copyDone (s : HState) (h : s.cpc = CPC.ccopy 25) :
      Step s { s with cpc := CPC.cblast, sem := 2 }
  | prodStart (s : HState) (h : s.ppc = PPC.ptop) (hs : s.sem ≠ 1) :
      Step s { s with ppc := PPC.pwrite }
  | prodWrite (s : HState) (k : Fin 25) (v : Nat) (h : s.ppc = PPC.pwrite) :
      Step s { s with blk := Function.update s.blk k v }
  | prodStage (s : HState) (h : s.ppc = PPC.pwrite) :
      Step s { s with ppc := PPC.pwait, sem := 0, staged := s.blk :: s.staged }
  | prodResume (s : HState) (h : s.ppc = PPC.pwait) (hs : s.sem = 2) :
      Step s { s with ppc := PPC.pundo }
  | prodUndo (s : HState) (k : Fin 25) (v : Nat) (h : s.ppc = PPC.pundo) :
      Step s { s with blk := Function.update s.blk k v }
  | prodLoop (s : HState) (h : s.ppc = PPC.pundo) :
      Step s { s with ppc := PPC.ptop }
/-- The initial shared `block` of `test_multiseg.c`, flattened row by
row: all content bits zero, one transistor bit per group. -/
def initBlk : Fin 25 → Nat := fun k =>
  [0, 0, 0, 4, 0,
   0, 0, 0, 2, 0,
   0, 0, 0, 1, 0,
   0, 0, 0, 0, 0x80,
   0, 0, 0, 0, 0x40].getD k.val 0
/-- The initial state: `semaphore = 2`, both threads at the top of
their loops, the consumer's working copy equal to the shared block. -/
def initState : HState :=
  { sem := 2, blk := initBlk, localBlk := initBlk, staged := [initBlk],
    ppc := PPC.ptop, cpc := CPC.cblast }
/-- The inductive invariant of the handoff protocol. -/
def Inv (s : HState) : Prop :=
  s.sem ≤ 2 ∧
  (∀ k, s.cpc = CPC.ccopy k →
    k ≤ 25 ∧ s.sem = 1 ∧ s.ppc = PPC.pwait ∧ s.staged.head? = some s.blk ∧
      ∀ i : Fin 25, i.val < k → s.localBlk i = s.blk i) ∧
  ((∀ k, s.cpc ≠ CPC.ccopy k) → s.localBlk ∈ s.staged) ∧
  (s.sem = 0 → s.ppc = PPC.pwait ∧ s.staged.head? = some s.blk ∧
    ∀ k, s.cpc ≠ CPC.ccopy k) ∧
  (s.sem = 1 → s.ppc = PPC.pwait ∧ s.staged.head? = some s.blk ∧
    ∃ k, s.cpc = CPC.ccopy k) ∧
  ((s.ppc = PPC.pwrite ∨ s.ppc = PPC.pundo) → s.sem = 2 ∧ ∀ k, s.cpc ≠ CPC.ccopy k)

end Handoff

namespace LTM

/-- C1: for every digit character `'0'`..`'9'`, `ltm_find_numeric_code`
equals the documented fold of that character's alphanumeric code; for
every other character it equals the fold of the asterisk code `0x03FC`
(which evaluates to the fixed dash pattern 2). -/
theorem C1_numeric_code_is_fold :
    ∀ c : Nat,
      ltm_find_numeric_code c =
        numericFold (if 48 ≤ c ∧ c ≤ 57 then ltm_find_alphanum_code c else 0x03FC) := by
  intro c
  by_cases h : 48 ≤ c ∧ c ≤ 57
  · obtain ⟨h1, h2⟩ := h
    interval_cases c <;> decide
  · simp only [ltm_find_numeric_code, numericFold, if_neg h]
    decide
/-- C6: for every character in `A`..`Z` (65..90) or `0`..`9` (48..57),
the table holds exactly one entry for that character and
`ltm_find_alphanum_code` returns it; for every other character the
function returns the asterisk sentinel `0x03FC`. -/
theorem C6_alphanum_lookup :
    ∀ c : Fin 256,
      (((65 ≤ c.val ∧ c.val ≤ 90) ∨ (48 ≤ c.val ∧ c.val ≤ 57)) →
        alphanum_chars.filter (fun p => p.1 == c.val) =
          [(c.val, ltm_find_alphanum_code c.val)]) ∧
      (¬((65 ≤ c.val ∧ c.val ≤ 90) ∨ (48 ≤ c.val ∧ c.val ≤ 57)) →
        ltm_find_alphanum_code c.val = 0x03FC) := by
  decide
/-- Witness for C6: the in-range case at `'A'` (65) and the out-of-range
case at lowercase `'a'` (97). -/
theorem C6_alphanum_lookup_witness :
    alphanum_chars.filter (fun p => p.1 == 65) = [(65, ltm_find_alphanum_code 65)] ∧
      ltm_find_alphanum_code 97 = 0x03FC :=
  ⟨(C6_alphanum_lookup 65).1 (by decide), (C6_alphanum_lookup 97).2 (by decide)⟩
/-- Nesting two constant masks is one mask: helper for mask reasoning. -/
lemma and_lit_zero (x : Nat) {a b : Nat} (h : a &&& b = 0) : (x &&& a) &&& b = 0 := by
  rw [Nat.and_assoc, h, Nat.and_zero]
/-- A mask inside a larger mask collapses to the inner mask. -/
lemma and_lit_sub (x : Nat) {a b : Nat} (h : a &&& b = b) : (x &&& a) &&& b = x &&& b := by
  rw [Nat.and_assoc, h]
/-- ORing in bits outside a mask does not change the masked value. -/
lemma or_and_cancel (x v m : Nat) (h : v &&& m = 0) : (x ||| v) &&& m = x &&& m := by
  rw [Nat.and_comm, Nat.and_or_distrib_left, Nat.and_comm m v, h, Nat.or_zero, Nat.and_comm]
/-- ORing in bits inside a mask passes through the mask. -/
lemma or_and_keep (x v m : Nat) (h : v &&& m = v) : (x ||| v) &&& m = (x &&& m) ||| v := by
  rw [Nat.and_comm, Nat.and_or_distrib_left, Nat.and_comm m v, h, Nat.and_comm]
/-- C2 counterexample: after `ltm_render_numeric "4"` on the initial
buffer, bit 0 of byte 1 in group 1 is a set numeric-owned bit, and
`ltm_clear_alphanum` changes it (its `& 0x02` mask clears bit 0), so
clearing the alphanumeric region does not leave every numeric-owned bit
unchanged. -/
theorem C2_clear_alphanum_counterexample :
    ltm_clear_alphanum (ltm_render_numeric [52] block) 1 1 &&& numericOwnedMask 1 1 ≠
      ltm_render_numeric [52] block 1 1 &&& numericOwnedMask 1 1 := by
  decide
/-- C2 amended: `ltm_clear_alphanum` (equivalently `ltm_render_alphanum`
with the empty string) clears every alphanumeric-owned bit and leaves
every mux-select bit and every numeric-owned bit unchanged EXCEPT bit 0
of byte 1 in groups 1 and 2 (the first wire bit of the first numeric
digit cell), which it also clears. -/
theorem C2_clear_alphanum_amended :
    ∀ b : Blk,
      (∀ i j : Fin 5,
        ltm_clear_alphanum b i j &&& alphaOwnedMask i j = 0 ∧
        ltm_clear_alphanum b i j &&& muxSelectMask j = b i j &&& muxSelectMask j ∧
        ltm_clear_alphanum b i j &&& (numericOwnedMask i j &&& 0xFE) =
          b i j &&& (numericOwnedMask i j &&& 0xFE)) ∧
      ltm_render_alphanum [] b = ltm_clear_alphanum b ∧
      ltm_clear_alphanum b 1 1 &&& 1 = 0 ∧
      ltm_clear_alphanum b 2 1 &&& 1 = 0 := by
  intro b
  refine ⟨fun i j => ?_, rfl, ?_, ?_⟩
  · fin_cases i <;> fin_cases j <;>
      refine ⟨?_, ?_, ?_⟩ <;>
      simp [ltm_clear_alphanum, caFun, alphaOwnedMask, muxSelectMask, numericOwnedMask] <;>
      first
        | rfl
        | exact and_lit_zero _ (by decide)
        | exact and_lit_sub _ (by decide)
  · simp only [ltm_clear_alphanum, caFun]
    exact and_lit_zero _ (by decide)
  · simp only [ltm_clear_alphanum, caFun]
    exact and_lit_zero _ (by decide)
/-- C8: `ltm_render_numeric "42"` ORs the numeric code of `'4'` (52)
into bytes 1 and 2 of group 1 and the numeric code of `'2'` (50) into
bytes 1 and 2 of group 2 at their designated offsets, clears the rest
of the numeric region (byte 2 entirely, the low two bits of byte 1, the
high nibble of byte 3 in groups 1 and 2), and leaves every byte of
groups 0, 3 and 4 bit-for-bit untouched. -/
theorem C8_render_numeric_42 :
    ∀ (b : Blk) (i j : Fin 5),
      ltm_render_numeric [52, 50] b i j =
        if i.val = 1 then
          (if j.val = 1 then (b i j &&& 0xFC) ||| ((ltm_find_numeric_code 52 &&& 0xC0) >>> 6)
           else if j.val = 2 then (ltm_find_numeric_code 52 &&& 0x3E) <<< 2
           else if j.val = 3 then b i j &&& 0x0F
           else b i j)
        else if i.val = 2 then
          (if j.val = 1 then (b i j &&& 0xFC) ||| ((ltm_find_numeric_code 50 &&& 0xC0) >>> 6)
           else if j.val = 2 then (ltm_find_numeric_code 50 &&& 0x3E) <<< 2
           else if j.val = 3 then b i j &&& 0x0F
           else b i j)
        else b i j := by
  intro b i j
  fin_cases i <;> fin_cases j <;>
    simp [ltm_render_numeric, numLoop, numStep, numGroup, orUpd, ltm_clear_numeric, cnFun]
lemma or_left_comm (a b c : Nat) : a ||| (b ||| c) = b ||| (a ||| c) := by
  rw [← Nat.or_assoc, Nat.or_comm a b, Nat.or_assoc]
lemma or_and_distrib (x y m : Nat) : (x ||| y) &&& m = (x &&& m) ||| (y &&& m) := by
  rw [Nat.and_comm, Nat.and_or_distrib_left, Nat.and_comm m x, Nat.and_comm m y]
lemma shl_and_lit_zero (c : Nat) {a k m : Nat} (h : (a <<< k) &&& m = 0) :
    ((c &&& a) <<< k) &&& m = 0 := by
  apply Nat.eq_of_testBit_eq
  intro n
  have hn := congrArg (fun t => t.testBit n) h
  simp [Nat.testBit_and, Nat.testBit_shiftLeft, Nat.zero_testBit] at hn ⊢
  intro h1 h2 h3
  exact hn h1 h3
lemma shr_and_lit_zero (c : Nat) {a k m : Nat} (h : (a >>> k) &&& m = 0) :
    ((c &&& a) >>> k) &&& m = 0 := by
  apply Nat.eq_of_testBit_eq
  intro n
  have hn := congrArg (fun t => t.testBit n) h
  simp [Nat.testBit_and, Nat.testBit_shiftRight, Nat.zero_testBit] at hn ⊢
  intro h1 h2
  exact hn h2
lemma ca_alphaStep (i c : Nat) (b : Blk) :
    ltm_clear_alphanum (alphaStep i c b) = ltm_clear_alphanum b := by
  funext gi bj
  rcases Nat.lt_or_ge i 5 with h5 | h5
  · interval_cases i <;> fin_cases gi <;> fin_cases bj <;>
      simp [ltm_clear_alphanum, caFun, alphaStep, orUpd] <;>
      first
        | rfl
        | exact or_and_cancel _ _ _ (and_lit_zero _ (by decide))
  · rcases Nat.lt_or_ge i 7 with h7 | h7
    · interval_cases i <;> fin_cases gi <;> fin_cases bj <;>
        simp [ltm_clear_alphanum, caFun, alphaStep, orUpd] <;>
        first
          | rfl
          | exact or_and_cancel _ _ _ (and_lit_zero _ (by decide))
          | exact or_and_cancel _ _ _ (shl_and_lit_zero _ (by decide))
    · have h5n : ¬ i < 5 := by omega
      have h7n : ¬ i < 7 := by omega
      simp [alphaStep, h5n, h7n]
lemma cn_alphaStep (i c : Nat) (b : Blk) :
    ltm_clear_numeric (alphaStep i c b) = alphaStep i c (ltm_clear_numeric b) := by
  funext gi bj
  rcases Nat.lt_or_ge i 5 with h5 | h5
  · interval_cases i <;> fin_cases gi <;> fin_cases bj <;>
      simp [ltm_clear_numeric, cnFun, alphaStep, orUpd] <;>
      first
        | rfl
        | exact or_and_keep _ _ _ (and_lit_sub _ (by decide))
  · rcases Nat.lt_or_ge i 7 with h7 | h7
    · interval_cases i <;> fin_cases gi <;> fin_cases bj <;>
        simp [ltm_clear_numeric, cnFun, alphaStep, orUpd] <;>
        first
          | rfl
          | exact or_and_keep _ _ _ (and_lit_sub _ (by decide))
    · have h5n : ¬ i < 5 := by omega
      have h7n : ¬ i < 7 := by omega
      simp [alphaStep, h5n, h7n]
lemma ca_numStep (i c : Nat) (b : Blk) :
    ltm_clear_alphanum (numStep i c b) = numStepA i c (ltm_clear_alphanum b) := by
  funext gi bj
  rcases Nat.lt_or_ge i 2 with h2 | h2
  · rcases Nat.eq_zero_or_pos (i % 2) with hp | hp
    · fin_cases gi <;> fin_cases bj <;>
        simp [ltm_clear_alphanum, caFun, numStep, numStepA, numGroup, orUpd, h2, hp] <;>
        first
          | rfl
          | exact or_and_distrib _ _ _
    · have hp1 : i % 2 = 1 := by omega
      fin_cases gi <;> fin_cases bj <;>
        simp [ltm_clear_alphanum, caFun, numStep, numStepA, numGroup, orUpd, h2, hp1] <;>
        first
          | rfl
          | exact or_and_distrib _ _ _
  · have h2n : ¬ i < 2 := by omega
    rcases Nat.eq_zero_or_pos (i % 2) with hp | hp
    · fin_cases gi <;> fin_cases bj <;>
        simp [ltm_clear_alphanum, caFun, numStep, numStepA, numGroup, orUpd, h2n, hp] <;> rfl
    · have hp1 : i % 2 = 1 := by omega
      fin_cases gi <;> fin_cases bj <;>
        simp [ltm_clear_alphanum, caFun, numStep, numStepA, numGroup, orUpd, h2n, hp1] <;> rfl
lemma ca_ca (b : Blk) :
    ltm_clear_alphanum (ltm_clear_alphanum b) = ltm_clear_alphanum b := by
  funext gi bj
  fin_cases gi <;> fin_cases bj <;>
    simp [ltm_clear_alphanum, caFun] <;>
    first
      | rfl
      | exact and_lit_sub _ (by decide)
lemma ca_cn_comm (b : Blk) :
    ltm_clear_alphanum (ltm_clear_numeric b) = ltm_clear_numeric (ltm_clear_alphanum b) := by
  funext gi bj
  fin_cases gi <;> fin_cases bj <;>
    simp [ltm_clear_alphanum, caFun, ltm_clear_numeric, cnFun] <;>
    first
      | rfl
      | exact (and_lit_zero _ (by decide)).trans (and_lit_zero _ (by decide)).symm
lemma ca_alphaLoop (cs : List Nat) : ∀ (i : Nat) (b : Blk),
    ltm_clear_alphanum (alphaLoop i cs b) = ltm_clear_alphanum b := by
  induction cs with
  | nil => intro i b; rfl
  | cons c cs ih =>
    intro i b
    by_cases hg : i < 7 ∧ c ≠ 0
    · simp only [alphaLoop, if_pos hg]
      rw [ih, ca_alphaStep]
    · simp only [alphaLoop, if_neg hg]
lemma cn_alphaLoop (cs : List Nat) : ∀ (i : Nat) (b : Blk),
    ltm_clear_numeric (alphaLoop i cs b) = alphaLoop i cs (ltm_clear_numeric b) := by
  induction cs with
  | nil => intro i b; rfl
  | cons c cs ih =>
    intro i b
    by_cases hg : i < 7 ∧ c ≠ 0
    · simp only [alphaLoop, if_pos hg]
      rw [ih, cn_alphaStep]
    · simp only [alphaLoop, if_neg hg]
lemma ca_numLoop (cs : List Nat) : ∀ (i : Nat) (b : Blk),
    ltm_clear_alphanum (numLoop i cs b) = numLoopA i cs (ltm_clear_alphanum b) := by
  induction cs with
  | nil => intro i b; rfl
  | cons c cs ih =>
    intro i b
    by_cases hg : i < 4 ∧ c ≠ 0
    · simp only [numLoop, numLoopA, if_pos hg]
      rw [ih, ca_numStep]
    · simp only [numLoop, numLoopA, if_neg hg]
lemma orUpd_swap (g1 q1 : Fin 5) (v1 : Nat) (g2 q2 : Fin 5) (v2 : Nat) (x : Blk) :
    orUpd g1 q1 v1 (orUpd g2 q2 v2 x) = orUpd g2 q2 v2 (orUpd g1 q1 v1 x) := by
  funext i j
  simp only [orUpd]
  split_ifs <;> first | rfl | ac_rfl
set_option maxHeartbeats 1600000 in
lemma alphaStep_numStep (ia ca inn cn : Nat) (b : Blk) :
    alphaStep ia ca (numStep inn cn b) = numStep inn cn (alphaStep ia ca b) := by
  rcases Nat.lt_or_ge ia 5 with h5 | h5
  · rcases Nat.lt_or_ge inn 2 with h2 | h2
    · simp only [alphaStep, dif_pos h5, numStep, if_pos h2]
      funext i j
      simp only [orUpd]
      split_ifs <;> first | rfl | ac_rfl
    · simp only [alphaStep, dif_pos h5, numStep, if_neg (by omega : ¬ inn < 2)]
      funext i j
      simp only [orUpd]
      split_ifs <;> first | rfl | ac_rfl
  · rcases Nat.lt_or_ge ia 7 with h7 | h7
    · rcases Nat.lt_or_ge inn 2 with h2 | h2
      · simp only [alphaStep, dif_neg (by omega : ¬ ia < 5), dif_pos h7, numStep, if_pos h2]
        funext i j
        simp only [orUpd]
        split_ifs <;> first | rfl | ac_rfl
      · simp only [alphaStep, dif_neg (by omega : ¬ ia < 5), dif_pos h7, numStep,
          if_neg (by omega : ¬ inn < 2)]
        funext i j
        simp only [orUpd]
        split_ifs <;> first | rfl | ac_rfl
    · simp only [alphaStep]
      rw [dif_neg (by omega : ¬ ia < 5), dif_neg (by omega : ¬ ia < 7),
        dif_neg (by omega : ¬ ia < 5), dif_neg (by omega : ¬ ia < 7)]
set_option maxHeartbeats 1600000 in
lemma alphaStep_numStepA (ia ca inn cn : Nat) (b : Blk) :
    alphaStep ia ca (numStepA inn cn b) = numStepA inn cn (alphaStep ia ca b) := by
  rcases Nat.lt_or_ge inn 2 with h2 | h2
  · rcases Nat.lt_or_ge ia 5 with h5 | h5
    · simp only [alphaStep, dif_pos h5, numStepA, if_pos h2]
      funext i j
      simp only [orUpd]
      split_ifs <;> first | rfl | ac_rfl
    · rcases Nat.lt_or_ge ia 7 with h7 | h7
      · simp only [alphaStep, dif_neg (by omega : ¬ ia < 5), dif_pos h7, numStepA, if_pos h2]
        funext i j
        simp only [orUpd]
        split_ifs <;> first | rfl | ac_rfl
      · simp only [alphaStep]
        rw [dif_neg (by omega : ¬ ia < 5), dif_neg (by omega : ¬ ia < 7),
          dif_neg (by omega : ¬ ia < 5), dif_neg (by omega : ¬ ia < 7)]
  · simp only [numStepA, if_neg (by omega : ¬ inn < 2)]
    exact alphaStep_numStep ia ca inn cn b
lemma alphaStep_numLoopA (ia ca : Nat) (cs : List Nat) : ∀ (inn : Nat) (b : Blk),
    alphaStep ia ca (numLoopA inn cs b) = numLoopA inn cs (alphaStep ia ca b) := by
  induction cs with
  | nil => intro inn b; rfl
  | cons c cs ih =>
    intro inn b
    by_cases hg : inn < 4 ∧ c ≠ 0
    · simp only [numLoopA, if_pos hg]
      rw [ih, alphaStep_numStepA]
    · simp only [numLoopA, if_neg hg]
lemma alphaLoop_numLoopA (as : List Nat) : ∀ (ja : Nat) (cs : List Nat) (inn : Nat) (b : Blk),
    alphaLoop ja as (numLoopA inn cs b) = numLoopA inn cs (alphaLoop ja as b) := by
  induction as with
  | nil => intro ja cs inn b; rfl
  | cons a as ih =>
    intro ja cs inn b
    by_cases hg : ja < 7 ∧ a ≠ 0
    · simp only [alphaLoop, if_pos hg]
      rw [alphaStep_numLoopA, ih]
    · simp only [alphaLoop, if_neg hg]
lemma clear_bit0_or (x v : Nat) :
    ((x ||| v) >>> 1) <<< 1 = ((x >>> 1) <<< 1) ||| ((v >>> 1) <<< 1) := by
  apply Nat.eq_of_testBit_eq
  intro n
  rcases n with _ | n
  · simp [Nat.testBit_shiftLeft]
  · simp [Nat.testBit_shiftLeft, Nat.testBit_shiftRight, Nat.testBit_or]
lemma clear_bit0_small (v : Nat) (h : v < 4) : (v >>> 1) <<< 1 = v &&& 2 := by
  interval_cases v <;> decide
lemma clear_bit0_of_and1 (x : Nat) (h : x &&& 1 = 0) : (x >>> 1) <<< 1 = x := by
  apply Nat.eq_of_testBit_eq
  intro n
  rcases n with _ | n
  · have h0 := congrArg (fun t => t.testBit 0) h
    simp only [Nat.testBit_and, Nat.zero_testBit] at h0
    simp only [Nat.testBit_shiftLeft]
    simp at h0 ⊢
    omega
  · simp [Nat.testBit_shiftLeft, Nat.testBit_shiftRight, Nat.add_comm]
lemma numByte1Val_lt (c : Nat) : (c &&& 0xC0) >>> 6 < 4 := by
  have h1 : c &&& 0xC0 ≤ 0xC0 := Nat.and_le_right
  calc (c &&& 0xC0) >>> 6 = (c &&& 0xC0) / 64 := by rw [Nat.shiftRight_eq_div_pow]
    _ ≤ 192 / 64 := Nat.div_le_div_right h1
    _ < 4 := by norm_num
lemma numStepA_fixup (i c : Nat) (X : Blk) :
    numStepA i c (numFixup X) = numFixup (numStep i c X) := by
  funext gi bj
  rcases Nat.lt_or_ge i 2 with h2 | h2
  · rcases Nat.eq_zero_or_pos (i % 2) with hp | hp
    · fin_cases gi <;> fin_cases bj <;>
        simp [numFixup, numStep, numStepA, numGroup, orUpd, h2, hp] <;>
        first
          | rfl
          | exact ((clear_bit0_or _ _).trans
              (by rw [clear_bit0_small _ (numByte1Val_lt c)])).symm
    · have hp1 : i % 2 = 1 := by omega
      fin_cases gi <;> fin_cases bj <;>
        simp [numFixup, numStep, numStepA, numGroup, orUpd, h2, hp1] <;>
        first
          | rfl
          | exact ((clear_bit0_or _ _).trans
              (by rw [clear_bit0_small _ (numByte1Val_lt c)])).symm
  · have h2n : ¬ i < 2 := by omega
    rcases Nat.eq_zero_or_pos (i % 2) with hp | hp
    · fin_cases gi <;> fin_cases bj <;>
        simp [numFixup, numStep, numStepA, numGroup, orUpd, h2n, hp]
    · have hp1 : i % 2 = 1 := by omega
      fin_cases gi <;> fin_cases bj <;>
        simp [numFixup, numStep, numStepA, numGroup, orUpd, h2n, hp1]
lemma numLoopA_fixup (cs : List Nat) : ∀ (i : Nat) (X : Blk),
    numLoopA i cs (numFixup X) = numFixup (numLoop i cs X) := by
  induction cs with
  | nil => intro i X; rfl
  | cons c cs ih =>
    intro i X
    by_cases hg : i < 4 ∧ c ≠ 0
    · simp only [numLoop, numLoopA, if_pos hg]
      rw [numStepA_fixup, ih]
    · simp only [numLoop, numLoopA, if_neg hg]
lemma numFixup_id (X : Blk) (h1 : X 1 1 &&& 1 = 0) (h2 : X 2 1 &&& 1 = 0) :
    numFixup X = X := by
  funext i j
  fin_cases i <;> fin_cases j <;>
    simp [numFixup] <;>
    first
      | rfl
      | exact clear_bit0_of_and1 _ h1
      | exact clear_bit0_of_and1 _ h2
lemma alphaStep_bit0 (i c : Nat) (b : Blk) (hg1 : b 1 1 &&& 1 = 0) (hg2 : b 2 1 &&& 1 = 0) :
    alphaStep i c b 1 1 &&& 1 = 0 ∧ alphaStep i c b 2 1 &&& 1 = 0 := by
  rcases Nat.lt_or_ge i 5 with h5 | h5
  · constructor <;>
      (interval_cases i <;>
        simp [alphaStep, orUpd, -Nat.and_one_is_mod] <;>
        first
          | exact hg1
          | exact hg2
          | exact (or_and_cancel _ _ _ (and_lit_zero _ (by decide))).trans hg1
          | exact (or_and_cancel _ _ _ (and_lit_zero _ (by decide))).trans hg2)
  · rcases Nat.lt_or_ge i 7 with h7 | h7
    · constructor <;>
        (interval_cases i <;>
          simp [alphaStep, orUpd, -Nat.and_one_is_mod] <;>
          first
            | exact hg1
            | exact hg2)
    · have h5n : ¬ i < 5 := by omega
      have h7n : ¬ i < 7 := by omega
      constructor <;> simp [alphaStep, h5n, h7n, -Nat.and_one_is_mod] <;>
        first | exact hg1 | exact hg2
lemma alphaLoop_bit0 (cs : List Nat) : ∀ (i : Nat) (b : Blk),
    b 1 1 &&& 1 = 0 → b 2 1 &&& 1 = 0 →
    alphaLoop i cs b 1 1 &&& 1 = 0 ∧ alphaLoop i cs b 2 1 &&& 1 = 0 := by
  induction cs with
  | nil => intro i b h1 h2; exact ⟨h1, h2⟩
  | cons c cs ih =>
    intro i b h1 h2
    by_cases hg : i < 7 ∧ c ≠ 0
    · simp only [alphaLoop, if_pos hg]
      have hs := alphaStep_bit0 i (ltm_find_alphanum_code c) b h1 h2
      exact ih (i + 1) _ hs.1 hs.2
    · simp only [alphaLoop, if_neg hg]
      exact ⟨h1, h2⟩
/-- C3 counterexample: with the initial buffer, the alphanumeric string
"A" and the numeric string "4", the two render orders disagree at byte 1
of group 1: rendering numeric last leaves the first numeric cell's bit 0
set, while rendering alphanumeric last clears it. -/
theorem C3_commute_counterexample :
    ltm_render_alphanum [65] (ltm_render_numeric [52] block) 1 1 ≠
      ltm_render_numeric [52] (ltm_render_alphanum [65] block) 1 1 := by
  decide
/-- C3 amended: the two render operations commute up to bit 0 of byte 1
in groups 1 and 2: for every buffer and all strings, rendering numeric
first and alphanumeric second equals the other order with bit 0 of
byte 1 of groups 1 and 2 cleared (the alphanumeric clear's `& 0x02` mask
erases that numeric-owned bit; every other bit position agrees). -/
theorem C3_commute_amended : ∀ (b : Blk) (a n : List Nat),
    ltm_render_alphanum a (ltm_render_numeric n b) =
      numFixup (ltm_render_numeric n (ltm_render_alphanum a b)) := by
  intro b a n
  show alphaLoop 0 a (ltm_clear_alphanum (numLoop 0 n (ltm_clear_numeric b))) =
    numFixup (numLoop 0 n (ltm_clear_numeric (alphaLoop 0 a (ltm_clear_alphanum b))))
  rw [ca_numLoop, alphaLoop_numLoopA, cn_alphaLoop, ← ca_cn_comm]
  have hbase1 : ltm_clear_alphanum (ltm_clear_numeric b) 1 1 &&& 1 = 0 := by
    simp [ltm_clear_alphanum, caFun, ltm_clear_numeric, cnFun, -Nat.and_one_is_mod]
    exact and_lit_zero _ (by decide)
  have hbase2 : ltm_clear_alphanum (ltm_clear_numeric b) 2 1 &&& 1 = 0 := by
    simp [ltm_clear_alphanum, caFun, ltm_clear_numeric, cnFun, -Nat.and_one_is_mod]
    exact and_lit_zero _ (by decide)
  have hX := alphaLoop_bit0 a 0 _ hbase1 hbase2
  rw [← numLoopA_fixup, numFixup_id _ hX.1 hX.2]
/-- C9: `ltm_render_alphanum` is idempotent: rendering the same string
twice yields bit-for-bit the same buffer as rendering it once. -/
theorem C9_render_alphanum_idempotent : ∀ (s : List Nat) (b : Blk),
    ltm_render_alphanum s (ltm_render_alphanum s b) = ltm_render_alphanum s b := by
  intro s b
  show alphaLoop 0 s (ltm_clear_alphanum (alphaLoop 0 s (ltm_clear_alphanum b))) =
    alphaLoop 0 s (ltm_clear_alphanum b)
  rw [ca_alphaLoop, ca_ca]
lemma alphaStep_byte4 (i c : Nat) (b : Blk) (gi : Fin 5) :
    alphaStep i c b gi 4 = b gi 4 := by
  rcases Nat.lt_or_ge i 5 with h5 | h5
  · simp [alphaStep, dif_pos h5, orUpd]
  · rcases Nat.lt_or_ge i 7 with h7 | h7
    · simp [alphaStep, dif_neg (by omega : ¬ i < 5), dif_pos h7, orUpd]
    · have h5n : ¬ i < 5 := by omega
      have h7n : ¬ i < 7 := by omega
      simp [alphaStep, h5n, h7n]
lemma numStep_byte4 (i c : Nat) (b : Blk) (gi : Fin 5) :
    numStep i c b gi 4 = b gi 4 := by
  rcases Nat.lt_or_ge i 2 with h2 | h2
  · simp [numStep, if_pos h2, orUpd]
  · simp [numStep, if_neg (by omega : ¬ i < 2), orUpd]
lemma alphaLoop_byte4 (cs : List Nat) : ∀ (i : Nat) (b : Blk) (gi : Fin 5),
    alphaLoop i cs b gi 4 = b gi 4 := by
  induction cs with
  | nil => intro i b gi; rfl
  | cons c cs ih =>
    intro i b gi
    by_cases hg : i < 7 ∧ c ≠ 0
    · simp only [alphaLoop, if_pos hg]
      rw [ih, alphaStep_byte4]
    · simp only [alphaLoop, if_neg hg]
lemma numLoop_byte4 (cs : List Nat) : ∀ (i : Nat) (b : Blk) (gi : Fin 5),
    numLoop i cs b gi 4 = b gi 4 := by
  induction cs with
  | nil => intro i b gi; rfl
  | cons c cs ih =>
    intro i b gi
    by_cases hg : i < 4 ∧ c ≠ 0
    · simp only [numLoop, if_pos hg]
      rw [ih, numStep_byte4]
    · simp only [numLoop, if_neg hg]
lemma ca_byte4 (b : Blk) (gi : Fin 5) : ltm_clear_alphanum b gi 4 = b gi 4 := by
  fin_cases gi <;> rfl
lemma cn_byte4 (b : Blk) (gi : Fin 5) : ltm_clear_numeric b gi 4 = b gi 4 := by
  fin_cases gi <;> rfl
/-- C7: the stop-bit invariant holds of the initial buffer and is
preserved by both render operations and both clear operations for every
input string: none of them ever touches byte 4 of any group. -/
theorem C7_stop_bits_invariant :
    low6Zero block ∧
      ∀ b : Blk, low6Zero b → ∀ s : List Nat,
        low6Zero (ltm_render_alphanum s b) ∧ low6Zero (ltm_clear_alphanum b) ∧
        low6Zero (ltm_render_numeric s b) ∧ low6Zero (ltm_clear_numeric b) := by
  refine ⟨(by decide : ∀ i : Fin 5, block i 4 &&& 0x3F = 0),
    fun b hb s => ⟨fun i => ?_, fun i => ?_, fun i => ?_, fun i => ?_⟩⟩
  · rw [show ltm_render_alphanum s b i 4 = b i 4 from
      (alphaLoop_byte4 s 0 _ i).trans (ca_byte4 b i)]
    exact hb i
  · rw [ca_byte4]
    exact hb i
  · rw [show ltm_render_numeric s b i 4 = b i 4 from
      (numLoop_byte4 s 0 _ i).trans (cn_byte4 b i)]
    exact hb i
  · rw [cn_byte4]
    exact hb i
/-- Witness for C7: the invariant holds of the initial buffer and, for
instance, of the buffer after rendering "T" and after clearing the
numeric region. -/
theorem C7_stop_bits_invariant_witness :
    low6Zero (ltm_render_alphanum [84] block) ∧ low6Zero (ltm_clear_numeric block) :=
  ⟨(C7_stop_bits_invariant.2 block C7_stop_bits_invariant.1 [84]).1,
   (C7_stop_bits_invariant.2 block C7_stop_bits_invariant.1 [84]).2.2.2⟩
lemma and_one_shift_eq_of_testBit (x y : Nat) (jx jy : Nat)
    (h : x.testBit jx = y.testBit jy) :
    (x >>> jx) &&& 1 = (y >>> jy) &&& 1 := by
  rw [Nat.and_one_is_mod, Nat.and_one_is_mod, Nat.shiftRight_eq_div_pow,
    Nat.shiftRight_eq_div_pow]
  rw [Nat.testBit_to_div_mod, Nat.testBit_to_div_mod] at h
  have hx := Nat.mod_two_eq_zero_or_one (x / 2 ^ jx)
  have hy := Nat.mod_two_eq_zero_or_one (y / 2 ^ jy)
  rcases hx with hx | hx <;> rcases hy with hy | hy <;> simp [hx, hy] at h ⊢
lemma and_one_shift_zero (x jx : Nat) (h : x.testBit jx = false) :
    (x >>> jx) &&& 1 = 0 := by
  rw [Nat.and_one_is_mod, Nat.shiftRight_eq_div_pow]
  rw [Nat.testBit_to_div_mod] at h
  have hx := Nat.mod_two_eq_zero_or_one (x / 2 ^ jx)
  rcases hx with hx | hx <;> simp [hx] at h ⊢
lemma mask_c0_high (x : Nat) {j : Nat} (h : Nat.testBit 0xC0 j = true) :
    ((x &&& 0xC0) >>> j) &&& 1 = (x >>> j) &&& 1 :=
  and_one_shift_eq_of_testBit _ _ _ _ (by rw [Nat.testBit_and, h, Bool.and_true])
lemma mask_c0_low (x : Nat) {j : Nat} (h : Nat.testBit 0xC0 j = false) :
    ((x &&& 0xC0) >>> j) &&& 1 = 0 :=
  and_one_shift_zero _ _ (by rw [Nat.testBit_and, h, Bool.and_false])
/-- C5: for every 5-byte group frame, `ltm_blast_block` puts exactly 41
bits on the wire: one start bit of value 1, then the five bytes
high-bit-first (40 bits), with the low 6 bits of byte 4 forced to 0. -/
theorem C5_blast_block_wire :
    ∀ blk : Fin 5 → Nat,
      (ltm_blast_block blk).length = 41 ∧
      ltm_blast_block blk =
        [1,
         (blk 0 >>> 7) &&& 1, (blk 0 >>> 6) &&& 1, (blk 0 >>> 5) &&& 1, (blk 0 >>> 4) &&& 1,
         (blk 0 >>> 3) &&& 1, (blk 0 >>> 2) &&& 1, (blk 0 >>> 1) &&& 1, (blk 0 >>> 0) &&& 1,
         (blk 1 >>> 7) &&& 1, (blk 1 >>> 6) &&& 1, (blk 1 >>> 5) &&& 1, (blk 1 >>> 4) &&& 1,
         (blk 1 >>> 3) &&& 1, (blk 1 >>> 2) &&& 1, (blk 1 >>> 1) &&& 1, (blk 1 >>> 0) &&& 1,
         (blk 2 >>> 7) &&& 1, (blk 2 >>> 6) &&& 1, (blk 2 >>> 5) &&& 1, (blk 2 >>> 4) &&& 1,
         (blk 2 >>> 3) &&& 1, (blk 2 >>> 2) &&& 1, (blk 2 >>> 1) &&& 1, (blk 2 >>> 0) &&& 1,
         (blk 3 >>> 7) &&& 1, (blk 3 >>> 6) &&& 1, (blk 3 >>> 5) &&& 1, (blk 3 >>> 4) &&& 1,
         (blk 3 >>> 3) &&& 1, (blk 3 >>> 2) &&& 1, (blk 3 >>> 1) &&& 1, (blk 3 >>> 0) &&& 1,
         (blk 4 >>> 7) &&& 1, (blk 4 >>> 6) &&& 1, 0, 0, 0, 0, 0, 0] := by
  intro blk
  have heq : ltm_blast_block blk =
      [1,
       (blk 0 >>> 7) &&& 1, (blk 0 >>> 6) &&& 1, (blk 0 >>> 5) &&& 1, (blk 0 >>> 4) &&& 1,
       (blk 0 >>> 3) &&& 1, (blk 0 >>> 2) &&& 1, (blk 0 >>> 1) &&& 1, (blk 0 >>> 0) &&& 1,
       (blk 1 >>> 7) &&& 1, (blk 1 >>> 6) &&& 1, (blk 1 >>> 5) &&& 1, (blk 1 >>> 4) &&& 1,
       (blk 1 >>> 3) &&& 1, (blk 1 >>> 2) &&& 1, (blk 1 >>> 1) &&& 1, (blk 1 >>> 0) &&& 1,
       (blk 2 >>> 7) &&& 1, (blk 2 >>> 6) &&& 1, (blk 2 >>> 5) &&& 1, (blk 2 >>> 4) &&& 1,
       (blk 2 >>> 3) &&& 1, (blk 2 >>> 2) &&& 1, (blk 2 >>> 1) &&& 1, (blk 2 >>> 0) &&& 1,
       (blk 3 >>> 7) &&& 1, (blk 3 >>> 6) &&& 1, (blk 3 >>> 5) &&& 1, (blk 3 >>> 4) &&& 1,
       (blk 3 >>> 3) &&& 1, (blk 3 >>> 2) &&& 1, (blk 3 >>> 1) &&& 1, (blk 3 >>> 0) &&& 1,
       (blk 4 >>> 7) &&& 1, (blk 4 >>> 6) &&& 1, 0, 0, 0, 0, 0, 0] := by
    show ((blast_bit 1) ::
        ((List.finRange 5).map fun i =>
          (List.range 8).map fun j =>
            blast_bit ((if i.val = 4 then blk i &&& 0xC0 else blk i) >>> (7 - j))).flatten) = _
    simp only [List.finRange, List.range, List.range.loop, List.map, List.flatten,
      List.append_assoc, List.cons_append, List.nil_append, blast_bit]
    simp only [List.cons.injEq]
    and_intros <;>
      first
        | trivial
        | exact mask_c0_high _ (by decide)
        | exact mask_c0_low _ (by decide)
  exact ⟨by rw [heq]; rfl, heq⟩
/-- C4: the claim says a failed export or direction setup must surface
as a non-success return from `ltm_display_init`; the code instead
ignores every GPIO status and returns 0 (success) even when every call
fails, as evaluated here at the daemon's pins (data 22, clock 17,
reset 27). -/
theorem C4_init_swallows_gpio_failure :
    failingGpio.export_pin 22 = -1 ∧
      failingGpio.set_direction 22 GPIO_DIR_OUTPUT = -1 ∧
      ltm_display_init failingGpio 22 17 27 = 0 :=
  ⟨rfl, rfl, rfl⟩

end LTM

namespace Handoff

lemma inv_init : Inv initState := by
  refine ⟨by decide, ?_, ?_, ?_, ?_, ?_⟩
  · intro k h; cases h
  · intro _; exact List.mem_singleton.mpr rfl
  · intro h; cases h
  · intro h; cases h
  · intro h; rcases h with h | h <;> cases h
lemma inv_step {s s' : HState} (hinv : Inv s) (hstep : Step s s') : Inv s' := by
  obtain ⟨h1, h2, h3, h4, h5, h6⟩ := hinv
  cases hstep with
  | blast h =>
    refine ⟨h1, ?_, ?_, ?_, ?_, ?_⟩
    · intro k hk; cases hk
    · intro _
      apply h3
      intro k hk
      rw [h] at hk; cases hk
    · intro hs
      obtain ⟨ha, hb, _⟩ := h4 hs
      exact ⟨ha, hb, fun k hk => by cases hk⟩
    · intro hs
      obtain ⟨_, _, k, hk⟩ := h5 hs
      rw [h] at hk; cases hk
    · intro hp
      obtain ⟨ha, _⟩ := h6 hp
      exact ⟨ha, fun k hk => by cases hk⟩
  | checkIdle h hs =>
    refine ⟨h1, ?_, ?_, ?_, ?_, ?_⟩
    · intro k hk; cases hk
    · intro _
      apply h3
      intro k hk
      rw [h] at hk; cases hk
    · intro hs0; exact absurd hs0 hs
    · intro hs1
      obtain ⟨_, _, k, hk⟩ := h5 hs1
      rw [h] at hk; cases hk
    · intro hp
      obtain ⟨ha, _⟩ := h6 hp
      exact ⟨ha, fun k hk => by cases hk⟩
  | checkGrab h hs =>
    obtain ⟨ha, hb, _⟩ := h4 hs
    refine ⟨(by decide : (1:Nat) ≤ 2), ?_, ?_, ?_, ?_, ?_⟩
    · intro k hk
      cases hk
      exact ⟨by omega, rfl, ha, hb, fun i hi => absurd hi (Nat.not_lt_zero _)⟩
    · intro hnone
      exact absurd rfl (hnone 0)
    · intro h0; cases h0
    · intro _
      exact ⟨ha, hb, 0, rfl⟩
    · intro hp
      rcases hp with hp | hp <;> rw [ha] at hp <;> cases hp
  | copyByte k h hk =>
    obtain ⟨hle, hsem, hppc, hhead, hcopied⟩ := h2 k h
    refine ⟨h1, ?_, ?_, ?_, ?_, ?_⟩
    · intro k' hk'
      cases hk'
      refine ⟨by omega, hsem, hppc, hhead, ?_⟩
      intro i hi
      show Function.update s.localBlk ⟨k, hk⟩ (s.blk ⟨k, hk⟩) i = s.blk i
      rcases Nat.lt_or_ge i.val k with hik | hik
      · have hne : i ≠ ⟨k, hk⟩ := by
          intro heq
          rw [heq] at hik
          exact absurd hik (Nat.lt_irrefl k)
        rw [Function.update_noteq hne]
        exact hcopied i hik
      · have hieq : i = ⟨k, hk⟩ := Fin.ext (show i.val = k by omega)
        rw [hieq, Function.update_same]
    · intro hnone
      exact absurd rfl (hnone (k + 1))
    · intro h0; rw [hsem] at h0; cases h0
    · intro _
      exact ⟨hppc, hhead, k + 1, rfl⟩
    · intro hp
      rcases hp with hp | hp <;> rw [hppc] at hp <;> cases hp
  | copyDone h =>
    obtain ⟨_, _, hppc, hhead, hcopied⟩ := h2 25 h
    have hloc : s.localBlk = s.blk := funext fun i => hcopied i i.isLt
    have hmem : s.blk ∈ s.staged := by
      rcases hst : s.staged with _ | ⟨b0, rest⟩
      · rw [hst] at hhead; cases hhead
      · rw [hst] at hhead
        simp only [List.head?_cons, Option.some.injEq] at hhead
        rw [← hhead]
        exact List.mem_cons_self b0 rest
    refine ⟨(by decide : (2:Nat) ≤ 2), ?_, ?_, ?_, ?_, ?_⟩
    · intro k hk; cases hk
    · intro _
      show s.localBlk ∈ s.staged
      rw [hloc]
      exact hmem
    · intro h0; cases h0
    · intro h0; cases h0
    · intro hp
      rcases hp with hp | hp <;> rw [hppc] at hp <;> cases hp
  | prodStart h hs =>
    have hsem2 : s.sem = 2 := by
      rcases Nat.lt_or_ge s.sem 1 with h0 | hge
      · have : s.sem = 0 := by omega
        obtain ⟨hp, _⟩ := h4 this
        rw [h] at hp; cases hp
      · omega
    have hnc : ∀ k, s.cpc ≠ CPC.ccopy k := by
      intro k hk
      obtain ⟨_, _, hp, _⟩ := h2 k hk
      rw [h] at hp; cases hp
    refine ⟨h1, ?_, ?_, ?_, ?_, ?_⟩
    · intro k hk; exact absurd hk (hnc k)
    · intro _; exact h3 hnc
    · intro h0; rw [hsem2] at h0; cases h0
    · intro h0; rw [hsem2] at h0; cases h0
    · intro _; exact ⟨hsem2, hnc⟩
  | prodWrite k v h =>
    obtain ⟨hsem2, hnc⟩ := h6 (Or.inl h)
    refine ⟨h1, ?_, ?_, ?_, ?_, ?_⟩
    · intro k' hk'; exact absurd hk' (hnc k')
    · intro _; exact h3 hnc
    · intro h0; rw [hsem2] at h0; cases h0
    · intro h0; rw [hsem2] at h0; cases h0
    · intro _; exact ⟨hsem2, hnc⟩
  | prodStage h =>
    obtain ⟨hsem2, hnc⟩ := h6 (Or.inl h)
    refine ⟨(by decide : (0:Nat) ≤ 2), ?_, ?_, ?_, ?_, ?_⟩
    · intro k hk; exact absurd hk (hnc k)
    · intro _
      exact List.mem_cons_of_mem _ (h3 hnc)
    · intro _
      exact ⟨rfl, rfl, hnc⟩
    · intro h0; cases h0
    · intro hp; rcases hp with hp | hp <;> cases hp
  | prodResume h hs =>
    have hnc : ∀ k, s.cpc ≠ CPC.ccopy k := by
      intro k hk
      obtain ⟨_, hsem1, _⟩ := h2 k hk
      rw [hs] at hsem1; cases hsem1
    refine ⟨h1, ?_, ?_, ?_, ?_, ?_⟩
    · intro k hk; exact absurd hk (hnc k)
    · intro _; exact h3 hnc
    · intro h0; rw [hs] at h0; cases h0
    · intro h0; rw [hs] at h0; cases h0
    · intro _; exact ⟨hs, hnc⟩
  | prodUndo k v h =>
    obtain ⟨hsem2, hnc⟩ := h6 (Or.inr h)
    refine ⟨h1, ?_, ?_, ?_, ?_, ?_⟩
    · intro k' hk'; exact absurd hk' (hnc k')
    · intro _; exact h3 hnc
    · intro h0; rw [hsem2] at h0; cases h0
    · intro h0; rw [hsem2] at h0; cases h0
    · intro _; exact ⟨hsem2, hnc⟩
  | prodLoop h =>
    obtain ⟨hsem2, hnc⟩ := h6 (Or.inr h)
    refine ⟨h1, ?_, ?_, ?_, ?_, ?_⟩
    · intro k hk; exact absurd hk (hnc k)
    · intro _; exact h3 hnc
    · intro h0; rw [hsem2] at h0; cases h0
    · intro h0; rw [hsem2] at h0; cases h0
    · intro hp; rcases hp with hp | hp <;> cases hp
lemma inv_reachable {s : HState} (h : Relation.ReflTransGen Step initState s) : Inv s := by
  induction h with
  | refl => exact inv_init
  | tail _ hstep ih => exact inv_step ih hstep
/-- C10: in every reachable state in which the refresh thread is at its
transmission point, its working copy is byte-for-byte one of the staged
snapshots (the initial block or a complete generation staged by the
producer) — never a mix of two generations. -/
theorem C10_no_torn_transmission :
    ∀ s : HState, Relation.ReflTransGen Step initState s →
      s.cpc = CPC.cblast → s.localBlk ∈ s.staged := by
  intro s hreach hc
  obtain ⟨_, _, h3, _⟩ := inv_reachable hreach
  apply h3
  intro k hk
  rw [hc] at hk
  cases hk
/-- Witness for C10 at the initial state itself. -/
theorem C10_no_torn_transmission_witness :
    initState.localBlk ∈ initState.staged :=
  C10_no_torn_transmission initState Relation.ReflTransGen.refl rfl

end Handoff
